import Mathlib

/-!
Shallow embedding of `word_counter.py` (EnglishStudy repository): a word-frequency
ingestion engine.  Pure functions of the script are translated to Lean functions;
the SQLite stores become explicit state (a function `String → Option WordRecord`
for the `words` table, a list of path strings for the `processed_files` table),
and code paths that can raise are modelled with `Except`/`Option`.

All definitions are translated from the source file `src/word_counter.py`;
doc comments give the correspondence.
-/

/-! ## Tokenizer: `WordCounter.extract_words` -/

/-- A character counted as a word character by Python's regex `\b` / `\w`
(ASCII fragment): letters, digits, and underscore.  Python's `\w` is also
Unicode-aware; this embedding covers ASCII text, which is all the claims use. -/
def isWordChar (c : Char) : Bool := c.isAlphanum || c = '_'

/-- ASCII letter, the chars matched by `[a-zA-Z]` in the source regex. -/
def isAsciiLetter (c : Char) : Bool := c.isAlpha

/-- Split a character list into its maximal runs of word characters
(the `\w`-runs of the text); `cur` accumulates the current run reversed. -/
def wordRuns (cur : List Char) : List Char → List (List Char)
  | [] => if cur = [] then [] else [cur.reverse]
  | c :: rest =>
    if isWordChar c then wordRuns (c :: cur) rest
    else if cur = [] then wordRuns [] rest
    else cur.reverse :: wordRuns [] rest

/-- `WordCounter.extract_words` (word_counter.py lines 89-95):
`re.findall(r'\b[a-zA-Z]+\b', text)` followed by lowercasing.
The regex matches exactly the maximal `\w`-runs that consist entirely of ASCII
letters: the leading `\b` can only sit at the start of a `\w`-run, the trailing
`\b` only at its end (between two word characters there is no boundary, so
greedy backtracking of `[a-zA-Z]+` never finds a shorter match), and
`[a-zA-Z]+` forces every character of the run to be an ASCII letter. -/
def extract_words (text : String) : List String :=
  ((wordRuns [] text.data).filter (fun r => r.all isAsciiLetter)).map
    (fun r => String.mk (r.map Char.toLower))

/-! ## Encoding Resolver: `WordCounter.detect_encoding` -/

/-- The fixed fallback list tried when detector confidence is below 0.7
(word_counter.py line 117). -/
def fallback_encodings : List String := ["utf-8", "gbk", "gb2312", "big5", "latin-1"]

/-- `WordCounter.detect_encoding` (word_counter.py lines 106-126), successful-read
path.  `guess`/`confidence` are chardet's result (`None` guess modelled as
`none`; the float confidence as a rational); `dec e` says whether the raw bytes
decode under encoding `e` without `UnicodeDecodeError`.  If confidence < 0.7 the
fallback list is scanned and the first encoding that decodes is returned; if the
scan falls through (and always when confidence ≥ 0.7) the guess is returned,
defaulting to `"utf-8"` when the guess is absent. -/
def detect_encoding (guess : Option String) (confidence : ℚ) (dec : String → Bool) :
    String :=
  if confidence < 7/10 then
    match fallback_encodings.find? dec with
    | some e => e
    | none => guess.getD "utf-8"
  else guess.getD "utf-8"

/-! ## Frequency Store: the `words` table and `WordCounter.update_database` -/

/-- One row of the `words` table (word_counter.py lines 34-43): cumulative
count, part-of-speech label, and the two timestamps (modelled as abstract
ticks).  The `word` column itself is the key of the `Store` map. -/
structure WordRecord where
  count : Nat
  pos_tag : String
  created_at : Nat
  updated_at : Nat
deriving DecidableEq, Repr

/-- The `words` table: a map from word (UNIQUE key) to its row. -/
abbrev Store := String → Option WordRecord

/-- The empty, freshly initialised `words` table. -/
def emptyStore : Store := fun _ => none

/-- `WordCounter.update_database` (word_counter.py lines 217-245): for each
`(word, count)` item of the batch, if the word exists its count is increased by
the batch count (the UPDATE trigger of lines 46-52 sets `updated_at` to the
current time); otherwise the tagger (`get_pos_tag`) is called for the word and
a fresh row is inserted with both timestamps set to now.  `tagger` is the
Category Tagger collaborator, `now` the current timestamp. -/
def update_database (tagger : String → String) (now : Nat) :
    List (String × Nat) → Store → Store
  | [], st => st
  | (w, c) :: rest, st =>
    match st w with
    | some r =>
      update_database tagger now rest
        (fun x => if x = w then
            some { count := r.count + c, pos_tag := r.pos_tag,
                   created_at := r.created_at, updated_at := now }
          else st x)
    | none =>
      update_database tagger now rest
        (fun x => if x = w then
            some { count := c, pos_tag := tagger w, created_at := now,
                   updated_at := now }
          else st x)

/-- Instrumentation of the same loop: the list of words for which
`update_database` invokes `get_pos_tag` (the INSERT branch), in order. -/
def taggerCalls (tagger : String → String) (now : Nat) :
    List (String × Nat) → Store → List String
  | [], _ => []
  | (w, c) :: rest, st =>
    match st w with
    | some r =>
      taggerCalls tagger now rest
        (fun x => if x = w then
            some { count := r.count + c, pos_tag := r.pos_tag,
                   created_at := r.created_at, updated_at := now }
          else st x)
    | none =>
      w :: taggerCalls tagger now rest
        (fun x => if x = w then
            some { count := c, pos_tag := tagger w, created_at := now,
                   updated_at := now }
          else st x)

/-- Count of a word in a batch: sum of the counts of its items. -/
def batchCount (batch : List (String × Nat)) (w : String) : Nat :=
  ((batch.filter (fun p => p.1 = w)).map (fun p => p.2)).sum

/-- Whether a batch has any item for word `w`. -/
def batchTouches (batch : List (String × Nat)) (w : String) : Bool :=
  batch.any (fun p => p.1 = w)

/-- The count the store holds for a word (0 when the word is absent). -/
def getCount (st : Store) (w : String) : Nat :=
  match st w with
  | some r => r.count
  | none => 0

/-- The row `update_database` leaves for a word, described directly: an
existing row keeps its tag and creation time, gains the batch count, and gets
its `updated_at` refreshed iff the batch touches the word; an absent word is
inserted iff the batch touches it. -/
def mergedEntry (tagger : String → String) (now : Nat)
    (batch : List (String × Nat)) (st : Store) (w : String) : Option WordRecord :=
  match st w with
  | some r =>
    some { count := r.count + batchCount batch w, pos_tag := r.pos_tag,
           created_at := r.created_at,
           updated_at := if batchTouches batch w then now else r.updated_at }
  | none =>
    if batchTouches batch w then
      some { count := batchCount batch w, pos_tag := tagger w,
             created_at := now, updated_at := now }
    else none

/-! ## Ingestion Tracker: the `processed_files` table -/

/-- The `processed_files` table (word_counter.py lines 67-73): the set of path
strings stored, UNIQUE. -/
abbrev Tracker := List String

/-- `WordCounter.is_file_processed` (lines 162-169): membership test on the
exact path string. -/
def is_file_processed (tr : Tracker) (p : String) : Bool :=
  tr.contains p

/-- `WordCounter.mark_file_processed` (lines 171-177): `INSERT OR IGNORE` of
the exact path string into the UNIQUE column. -/
def mark_file_processed (tr : Tracker) (p : String) : Tracker :=
  if tr.contains p then tr else p :: tr

/-- Modelled from the spec: the canonical form of a file path (the spec requires
the Tracker to be "keyed by a stable file identity (canonical path)"; the source
has no canonicalisation step).  Canonicalisation collapses equivalent spellings;
here, repeated leading `./` segments. -/
def canonicalChars : List Char → List Char
  | '.' :: '/' :: rest => canonicalChars rest
  | l => l

/-- Modelled from the spec: canonical file path, see `canonicalChars`. -/
def canonicalPath (p : String) : String :=
  String.mk (canonicalChars p.data)

/-! ## Batch Ingestor: `WordCounter.process_text_file` / `process_directory` -/

/-- `collections.Counter` over the token list, as `dict.items()` enumerates it:
one `(word, count)` pair per distinct word, in order of first appearance. -/
def counterItems (ws : List String) : List (String × Nat) :=
  ws.foldl
    (fun acc w =>
      if acc.any (fun p => p.1 = w) then
        acc.map (fun p => if p.1 = w then (p.1, p.2 + 1) else p)
      else acc ++ [(w, 1)])
    []

/-- `WordCounter.process_text_file` (word_counter.py lines 128-160).  `content`
is the outcome of encoding detection plus reading the file: `Except.error`
stands for any exception raised before the database update (unreadable file,
I/O failure), which the function catches, prints, and swallows, leaving the
store untouched.  On success the extracted words are counted and merged. -/
def process_text_file (tagger : String → String) (now : Nat)
    (content : Except String String) (st : Store) : Store :=
  match content with
  | .ok text => update_database tagger now (counterItems (extract_words text)) st
  | .error _ => st

/-- `WordCounter.process_directory` (word_counter.py lines 179-215).  `files`
is the list of discovered `.txt` paths paired with each file's read outcome.
The unprocessed files are selected once against the initial tracker state
(lines 197-198); then, for each of them, `process_text_file` runs and the file
is marked processed — unconditionally, whether or not processing raised
(lines 209-213). -/
def process_directory (tagger : String → String) (now : Nat)
    (files : List (String × Except String String)) (st : Store) (tr : Tracker) :
    Store × Tracker :=
  let unprocessed := files.filter (fun f => !(is_file_processed tr f.1))
  unprocessed.foldl
    (fun acc f => (process_text_file tagger now f.2 acc.1,
                   mark_file_processed acc.2 f.1))
    (st, tr)

/-! ## Queries: `show_stats` ranking and `search_word` -/

/-- Lexicographic order on character lists — the order SQLite's `ORDER BY
word ASC` applies to the TEXT column (bytewise comparison of the UTF-8
encoding, which on the ASCII words produced by the tokenizer is exactly
lexicographic comparison of characters). -/
def charsLE : List Char → List Char → Bool
  | [], _ => true
  | _ :: _, [] => false
  | a :: as, b :: bs => if a = b then charsLE as bs else decide (a < b)

/-- `word ASC`: lexicographic order on the word's characters. -/
def wordLE (a b : String) : Bool := charsLE a.data b.data

/-- The `ORDER BY count DESC, word ASC` comparison used by
`WordCounter.show_stats` (lines 265-269) and `WordCounter.export_words`
(lines 330-333), on `(word, count)` rows. -/
def rankLE (a b : String × Nat) : Prop :=
  b.2 < a.2 ∨ (a.2 = b.2 ∧ wordLE a.1 b.1 = true)

instance : DecidableRel rankLE := fun a b => by
  unfold rankLE; infer_instance

/-- The ranked-statistics query of `WordCounter.show_stats` (lines 265-269):
`SELECT word, count FROM words ORDER BY count DESC, word ASC LIMIT ?`, on the
table given as a list of `(word, count)` rows. -/
def rank (rows : List (String × Nat)) (limit : Nat) : List (String × Nat) :=
  (List.insertionSort rankLE rows).take limit

/-- Python's `str.lower()`, restricted to ASCII case folding as in the rest of
this embedding. -/
def str_lower (s : String) : String :=
  String.mk (s.data.map Char.toLower)

/-- `WordCounter.search_word` (word_counter.py lines 284-302): a SELECT of the
lowercased query word (`word.lower()`), returning the row when present and
nothing otherwise, together with the store — which the function only reads. -/
def search_word (st : Store) (w : String) : Option WordRecord × Store :=
  (st (str_lower w), st)

/-! ## Export: `WordCounter.export_words` -/

/-- Does `s` start with `pat`?  (Character-list version.) -/
def listStartsWith : List Char → List Char → Bool
  | _, [] => true
  | [], _ :: _ => false
  | a :: as, b :: bs => a = b && listStartsWith as bs

/-- Does `s` contain `pat` as a contiguous substring?  (Character-list
version.) -/
def listHasSub (pat : List Char) : List Char → Bool
  | [] => listStartsWith [] pat
  | c :: rest => listStartsWith (c :: rest) pat || listHasSub pat rest

/-- SQL `LIKE '%pat%'` on column value `s` (word_counter.py lines 317-319):
substring containment. -/
def likeMatch (s pat : String) : Bool :=
  listHasSub pat.data s.data

/-- The `ORDER BY count DESC, word ASC` comparison of `export_words`
(lines 330-333), on full `(word, count, pos_tag)` rows. -/
def rowLE (a b : String × Nat × String) : Prop :=
  b.2.1 < a.2.1 ∨ (a.2.1 = b.2.1 ∧ wordLE a.1 b.1 = true)

instance : DecidableRel rowLE := fun a b => by
  unfold rowLE; infer_instance

/-- `SELECT SUM(count) FROM words`, with SQL's NULL-on-empty collapsed to 0 by
the source's `or 0` (word_counter.py lines 310-311). -/
def all_words_total (rows : List (String × Nat × String)) : Nat :=
  (rows.map (fun r => r.2.1)).sum

/-- The rows matching the optional `pos_filter` (`WHERE pos_tag LIKE ?` with a
`%…%` pattern, lines 317-319); without a filter, all rows. -/
def filtered_rows (rows : List (String × Nat × String)) (pos_filter : Option String) :
    List (String × Nat × String) :=
  match pos_filter with
  | some p => rows.filter (fun r => likeMatch r.2.2 p)
  | none => rows

/-- The denominator for the within-filter percentage (lines 321-326): the
filtered `SUM(count)` when a filter is given, the grand total otherwise. -/
def filtered_total (rows : List (String × Nat × String)) (pos_filter : Option String) :
    Nat :=
  match pos_filter with
  | some _ => ((filtered_rows rows pos_filter).map (fun r => r.2.1)).sum
  | none => all_words_total rows

/-- The summed counts of the rows the export will actually list (equal to
`filtered_total` when a filter is given and to `all_words_total` otherwise). -/
def sel_total (rows : List (String × Nat × String)) (pos_filter : Option String) :
    Nat :=
  ((filtered_rows rows pos_filter).map (fun r => r.2.1)).sum

/-- One output line of the export (word_counter.py lines 348-356): the row
plus its within-filter percentage and its percentage of all words, each
guarded to 0 when its denominator is 0 (`if … > 0 else 0`). -/
def export_row (fT aT : Nat) (r : String × Nat × String) :
    String × Nat × String × ℚ × ℚ :=
  (r.1, r.2.1, r.2.2,
   if 0 < fT then (r.2.1 : ℚ) / (fT : ℚ) * 100 else 0,
   if 0 < aT then (r.2.1 : ℚ) / (aT : ℚ) * 100 else 0)

/-- `WordCounter.export_words` (word_counter.py lines 304-356), as the list of
data rows written to the output file: filter by `pos_filter`, order by
`count DESC, word ASC`, apply the optional `LIMIT`, and attach the two
percentage columns. -/
def export_words (rows : List (String × Nat × String)) (limit : Option Nat)
    (pos_filter : Option String) : List (String × Nat × String × ℚ × ℚ) :=
  let sorted := List.insertionSort rowLE (filtered_rows rows pos_filter)
  let limited := match limit with | some n => sorted.take n | none => sorted
  limited.map (export_row (filtered_total rows pos_filter) (all_words_total rows))

/-! ## Concrete fixtures used by the witnesses -/

/-- A concrete Category Tagger. -/
def tg0 : String → String := fun _ => "NN"

/-- A concrete one-row store: the word `cat`, count 2, tag `VB`. -/
def st0 : Store := fun w => if w = "cat" then some ⟨2, "VB", 0, 0⟩ else none

/-- A concrete two-row table for the export witnesses. -/
def rows9 : List (String × Nat × String) := [("cat", 5, "NN"), ("dog", 3, "VB")]

/-- A concrete table whose grand total is 0. -/
def rowsZ : List (String × Nat × String) := [("a", 0, "NN")]

/-! ## Theorems -/

/-- C2: the claim states that
`extract_words "Hello, world! It's HELLO-world_123."` equals
`["hello","world","it","s","hello","world"]`.  This is false on the code: the
letter run `world` in `world_123` is followed by `_`, a `\w` character, so the
trailing `\b` of the regex fails and that run is not emitted. -/
theorem c2_counterexample :
    extract_words "Hello, world! It's HELLO-world_123." ≠
      ["hello", "world", "it", "s", "hello", "world"] := by
  decide

/-- C2 (amended): for the input `"Hello, world! It's HELLO-world_123."` the
tokenizer returns exactly `["hello","world","it","s","hello"]`: hyphens and
apostrophes are not part of any token and letter runs adjacent to them are still
emitted, but a letter run directly adjacent to a digit or underscore (here the
second `world`, glued to `_123`) fails the word-boundary requirement and is not
emitted at all. -/
theorem c2_amended_tokens :
    extract_words "Hello, world! It's HELLO-world_123." =
      ["hello", "world", "it", "s", "hello"] := by
  decide

/-- C6: whenever detector confidence is below 0.7, the input fails to decode
under the first two fallback encodings (`utf-8`, `gbk`) and decodes without
error under the third (`gb2312`), the resolver returns the third fallback
encoding. -/
theorem c6_third_fallback (guess : Option String) (confidence : ℚ)
    (dec : String → Bool) (hconf : confidence < 7/10)
    (h1 : dec "utf-8" = false) (h2 : dec "gbk" = false)
    (h3 : dec "gb2312" = true) :
    detect_encoding guess confidence dec = "gb2312" := by
  simp [detect_encoding, if_pos hconf, fallback_encodings, List.find?, h1, h2, h3]

/-- C6 witness: a concrete decode predicate succeeding only on `gb2312`, with
confidence 1/2. -/
theorem c6_third_fallback_witness :
    detect_encoding (some "ascii") (1/2) (fun e => e == "gb2312") = "gb2312" :=
  c6_third_fallback (some "ascii") (1/2) (fun e => e == "gb2312")
    (by norm_num) rfl rfl rfl

/-- C10: on the low-confidence path, provided the last fallback `latin-1`
decodes the input (which in Python it does for every byte sequence), the
resolver's result is one of the five fixed fallback encodings, and the result
does not depend on the detector's guess at all — so the guess is never returned
there and the final default branch is unreachable from that path. -/
theorem c10_low_confidence_fallback (guess : Option String) (confidence : ℚ)
    (dec : String → Bool) (hconf : confidence < 7/10)
    (hlatin : dec "latin-1" = true) :
    detect_encoding guess confidence dec ∈ fallback_encodings ∧
      ∀ g g' : Option String,
        detect_encoding g confidence dec = detect_encoding g' confidence dec := by
  have hfind : ∃ e, fallback_encodings.find? dec = some e ∧ e ∈ fallback_encodings := by
    cases h1 : dec "utf-8" <;> cases h2 : dec "gbk" <;> cases h3 : dec "gb2312" <;>
      cases h4 : dec "big5" <;>
      simp_all [fallback_encodings, List.find?]
  obtain ⟨e, he, hemem⟩ := hfind
  constructor
  · simp [detect_encoding, if_pos hconf, he, hemem]
  · intro g g'
    simp [detect_encoding, if_pos hconf, he]

/-- C10 witness: with a decode predicate that accepts everything and confidence
1/2, the result is in the fallback list and is independent of the guess. -/
theorem c10_low_confidence_fallback_witness :
    detect_encoding (some "koi8-r") (1/2) (fun _ => true) ∈ fallback_encodings ∧
      detect_encoding (some "koi8-r") (1/2) (fun _ => true) =
        detect_encoding none (1/2) (fun _ => true) :=
  ⟨(c10_low_confidence_fallback (some "koi8-r") (1/2) (fun _ => true)
      (by norm_num) rfl).1,
    (c10_low_confidence_fallback (some "koi8-r") (1/2) (fun _ => true)
      (by norm_num) rfl).2 (some "koi8-r") none⟩

theorem batchCount_cons (v : String) (c : Nat) (rest : List (String × Nat))
    (w : String) :
    batchCount ((v, c) :: rest) w = (if v = w then c else 0) + batchCount rest w := by
  unfold batchCount
  rw [List.filter_cons]
  by_cases h : v = w <;> simp [h]

theorem batchTouches_cons (v : String) (c : Nat) (rest : List (String × Nat))
    (w : String) :
    batchTouches ((v, c) :: rest) w = (decide (v = w) || batchTouches rest w) := by
  simp [batchTouches]

theorem batchCount_eq_zero (batch : List (String × Nat)) (w : String)
    (h : batchTouches batch w = false) : batchCount batch w = 0 := by
  induction batch with
  | nil => rfl
  | cons hd rest ih =>
    obtain ⟨v, c⟩ := hd
    rw [batchTouches_cons] at h
    rcases Bool.or_eq_false_iff.mp h with ⟨h1, h2⟩
    rw [batchCount_cons, ih h2]
    simp [of_decide_eq_false h1]

theorem update_database_apply (tagger : String → String) (now : Nat) :
    ∀ (batch : List (String × Nat)) (st : Store) (w : String),
      update_database tagger now batch st w = mergedEntry tagger now batch st w := by
  intro batch
  induction batch with
  | nil =>
    intro st w
    cases h : st w with
    | none => simp [update_database, mergedEntry, h, batchTouches]
    | some r => simp [update_database, mergedEntry, h, batchCount, batchTouches]
  | cons hd rest ih =>
    obtain ⟨v, c⟩ := hd
    intro st w
    cases hv : st v with
    | some r =>
      simp only [update_database, hv]
      rw [ih]
      by_cases hw : w = v
      · subst hw
        simp [mergedEntry, hv, batchCount_cons, batchTouches_cons, Nat.add_assoc]
      · have hvw : ¬ v = w := fun h => hw h.symm
        simp [mergedEntry, hv, hw, hvw, batchCount_cons, batchTouches_cons]
    | none =>
      simp only [update_database, hv]
      rw [ih]
      by_cases hw : w = v
      · subst hw
        simp [mergedEntry, hv, batchCount_cons, batchTouches_cons]
      · have hvw : ¬ v = w := fun h => hw h.symm
        simp [mergedEntry, hv, hw, hvw, batchCount_cons, batchTouches_cons]

theorem getCount_update (tagger : String → String) (now : Nat)
    (batch : List (String × Nat)) (st : Store) (w : String) :
    getCount (update_database tagger now batch st) w
      = getCount st w + batchCount batch w := by
  unfold getCount
  rw [update_database_apply]
  unfold mergedEntry
  cases h : st w with
  | some r => simp [h]
  | none =>
    cases ht : batchTouches batch w with
    | true => simp [h, ht]
    | false => simp [h, ht, batchCount_eq_zero batch w ht]

/-- C3: merge is additive — for every store state and pair of batches A and B,
merging A then B gives every word the same final count as one merge of any
batch C whose per-word count is the sum of the word's counts in A and B (the
merge timestamps may differ freely). -/
theorem c3_merge_additive (tagger : String → String) (n1 n2 n3 : Nat)
    (st : Store) (A B C : List (String × Nat))
    (hC : ∀ w, batchCount C w = batchCount A w + batchCount B w) :
    ∀ w, getCount (update_database tagger n2 B (update_database tagger n1 A st)) w
      = getCount (update_database tagger n3 C st) w := by
  intro w
  rw [getCount_update, getCount_update, getCount_update, hC]
  omega

/-- C3 witness: merging `[("a",2)]` then `[("a",3),("b",1)]` into a concrete
store matches merging `[("a",5),("b",1)]` at once, and the resulting count of
`"a"` is 5. -/
theorem c3_merge_additive_witness :
    getCount (update_database tg0 1 [("a", 3), ("b", 1)]
        (update_database tg0 0 [("a", 2)] st0)) "a"
      = getCount (update_database tg0 2 [("a", 5), ("b", 1)] st0) "a" ∧
    getCount (update_database tg0 2 [("a", 5), ("b", 1)] st0) "a" = 5 := by
  constructor
  · refine c3_merge_additive tg0 0 1 2 st0 [("a", 2)] [("a", 3), ("b", 1)]
      [("a", 5), ("b", 1)] ?_ "a"
    intro w
    by_cases ha : "a" = w
    · subst ha; decide
    · by_cases hb : "b" = w
      · subst hb; decide
      · simp [batchCount, List.filter, ha, hb]
  · decide

theorem taggerCalls_mem (tagger : String → String) (now : Nat) :
    ∀ (batch : List (String × Nat)) (st : Store) (w : String),
      w ∈ taggerCalls tagger now batch st ↔
        (batchTouches batch w = true ∧ st w = none) := by
  intro batch
  induction batch with
  | nil => intro st w; simp [taggerCalls, batchTouches]
  | cons hd rest ih =>
    obtain ⟨v, c⟩ := hd
    intro st w
    cases hv : st v with
    | some r =>
      simp only [taggerCalls, hv]
      rw [ih]
      by_cases hw : w = v
      · subst hw
        simp [hv, batchTouches_cons]
      · have hvw : ¬ v = w := fun h => hw h.symm
        simp [hw, hvw, batchTouches_cons]
    | none =>
      simp only [taggerCalls, hv]
      by_cases hw : w = v
      · subst hw
        simp [hv, batchTouches_cons]
      · have hvw : ¬ v = w := fun h => hw h.symm
        rw [List.mem_cons, ih]
        simp [hw, hvw, batchTouches_cons]

theorem taggerCalls_nodup (tagger : String → String) (now : Nat) :
    ∀ (batch : List (String × Nat)) (st : Store),
      (taggerCalls tagger now batch st).Nodup := by
  intro batch
  induction batch with
  | nil => intro st; simp [taggerCalls]
  | cons hd rest ih =>
    obtain ⟨v, c⟩ := hd
    intro st
    cases hv : st v with
    | some r => simp only [taggerCalls, hv]; exact ih _
    | none =>
      simp only [taggerCalls, hv]
      refine List.nodup_cons.mpr ⟨?_, ih _⟩
      intro hmem
      rcases (taggerCalls_mem tagger now rest _ v).mp hmem with ⟨-, habs⟩
      simp at habs

/-- C7: the Category Tagger is invoked exactly once per distinct word and only
on its first observation — the words tagged during a merge are exactly (and
without repetition) the batch's words that are absent from the store — and a
merge touching an existing word only adds to its count and refreshes its
last-update timestamp, leaving its category label (and creation timestamp)
unchanged. -/
theorem c7_category_immutable (tagger : String → String) (now : Nat)
    (st : Store) (batch : List (String × Nat)) :
    (taggerCalls tagger now batch st).Nodup ∧
    (∀ w, w ∈ taggerCalls tagger now batch st ↔
      (batchTouches batch w = true ∧ st w = none)) ∧
    (∀ w r, st w = some r →
      update_database tagger now batch st w =
        some { count := r.count + batchCount batch w, pos_tag := r.pos_tag,
               created_at := r.created_at,
               updated_at := if batchTouches batch w then now else r.updated_at }) := by
  refine ⟨taggerCalls_nodup tagger now batch st,
    fun w => taggerCalls_mem tagger now batch st w, fun w r hr => ?_⟩
  rw [update_database_apply]
  simp [mergedEntry, hr]

/-- C7 witness: merging `[("dog",1),("cat",3)]` into the one-row store `st0`
(which holds `cat` tagged `"VB"`) tags exactly the new word `dog`, and leaves
`cat`'s tag `"VB"` and creation time intact while its count grows by the batch
count. -/
theorem c7_category_immutable_witness :
    (taggerCalls tg0 7 [("dog", 1), ("cat", 3)] st0).Nodup ∧
    ("dog" ∈ taggerCalls tg0 7 [("dog", 1), ("cat", 3)] st0 ↔
      (batchTouches [("dog", 1), ("cat", 3)] "dog" = true ∧ st0 "dog" = none)) ∧
    update_database tg0 7 [("dog", 1), ("cat", 3)] st0 "cat" =
      some { count := 2 + batchCount [("dog", 1), ("cat", 3)] "cat",
             pos_tag := "VB", created_at := 0,
             updated_at := if batchTouches [("dog", 1), ("cat", 3)] "cat" then 7
                           else 0 } :=
  ⟨(c7_category_immutable tg0 7 st0 [("dog", 1), ("cat", 3)]).1,
   (c7_category_immutable tg0 7 st0 [("dog", 1), ("cat", 3)]).2.1 "dog",
   (c7_category_immutable tg0 7 st0 [("dog", 1), ("cat", 3)]).2.2 "cat"
     ⟨2, "VB", 0, 0⟩ (by decide)⟩

/-- C8: looking up a word whose normalized form is absent from the store yields
the defined not-found result `none` (never an exception — `search_word` is
total), the lookup hands back the store unchanged, and on the empty store every
lookup is not-found. -/
theorem c8_lookup_not_found (st : Store) (w : String) :
    (search_word st w).2 = st ∧
    (st (str_lower w) = none → (search_word st w).1 = none) ∧
    (search_word emptyStore w).1 = none :=
  ⟨rfl, fun h => h, rfl⟩

/-- C8 witness: the unknown word `"missing"` against the concrete store `st0`. -/
theorem c8_lookup_not_found_witness :
    (search_word st0 "missing").2 = st0 ∧ (search_word st0 "missing").1 = none :=
  ⟨(c8_lookup_not_found st0 "missing").1,
   (c8_lookup_not_found st0 "missing").2.1 (by decide)⟩

theorem process_directory_fst (tagger : String → String) (now : Nat) :
    ∀ (l : List (String × Except String String)) (st : Store) (tr : Tracker),
      (l.foldl (fun acc f => (process_text_file tagger now f.2 acc.1,
          mark_file_processed acc.2 f.1)) (st, tr)).1
        = l.foldl (fun s f => process_text_file tagger now f.2 s) st := by
  intro l
  induction l with
  | nil => intro st tr; rfl
  | cons f rest ih =>
    intro st tr
    simp only [List.foldl_cons]
    exact ih _ _

theorem process_directory_snd (tagger : String → String) (now : Nat) :
    ∀ (l : List (String × Except String String)) (st : Store) (tr : Tracker),
      (l.foldl (fun acc f => (process_text_file tagger now f.2 acc.1,
          mark_file_processed acc.2 f.1)) (st, tr)).2
        = l.foldl (fun t f => mark_file_processed t f.1) tr := by
  intro l
  induction l with
  | nil => intro st tr; rfl
  | cons f rest ih =>
    intro st tr
    simp only [List.foldl_cons]
    exact ih _ _

theorem is_processed_mark_self (tr : Tracker) (p : String) :
    is_file_processed (mark_file_processed tr p) p = true := by
  unfold is_file_processed mark_file_processed
  split
  · next h => exact h
  · next h => simp [List.contains_cons]

theorem is_processed_mark_mono (tr : Tracker) (p q : String)
    (h : is_file_processed tr q = true) :
    is_file_processed (mark_file_processed tr p) q = true := by
  unfold is_file_processed at h
  unfold is_file_processed mark_file_processed
  split
  · exact h
  · simp [List.contains_cons]
    exact Or.inr (by simpa using h)

theorem mark_foldl_contains :
    ∀ (l : List (String × Except String String)) (tr : Tracker) (p : String),
      (p ∈ l.map (fun f => f.1) ∨ is_file_processed tr p = true) →
      is_file_processed (l.foldl (fun t f => mark_file_processed t f.1) tr) p
        = true := by
  intro l
  induction l with
  | nil =>
    intro tr p h
    rcases h with h | h
    · simp at h
    · exact h
  | cons f rest ih =>
    intro tr p h
    simp only [List.foldl_cons]
    apply ih
    rcases h with h | h
    · rw [List.map_cons] at h
      rcases List.mem_cons.mp h with h1 | h1
      · right; rw [h1]; exact is_processed_mark_self tr f.1
      · left; exact h1
    · right; exact is_processed_mark_mono tr f.1 p h

/-- C1: the claim states that a file whose per-file processing raises an error
is not marked processed and stays eligible for retry.  This is false on the
code: `process_directory` calls `mark_file_processed` unconditionally after
`process_text_file`, which swallows the error — here a directory holding the
single unreadable file `bad.txt` ends with `bad.txt` marked processed. -/
theorem c1_counterexample :
    is_file_processed
      (process_directory tg0 0 [("bad.txt", Except.error "io error")]
        emptyStore ([] : Tracker)).2 "bad.txt" = true := by
  decide

/-- C1 (amended): during directory ingestion a per-file error is caught and the
batch continues with the next file — an erroring file contributes nothing to
the store, and the final store is the same as if the file were absent from the
batch — but the erroring file IS marked processed in the Ingestion Tracker, so
it is not eligible for retry on a later run. -/
theorem c1_amended_error_file (tagger : String → String) (now : Nat)
    (st : Store) (tr : Tracker) (A B : List (String × Except String String))
    (bad e : String) :
    (process_directory tagger now (A ++ (bad, Except.error e) :: B) st tr).1 =
      (process_directory tagger now (A ++ B) st tr).1 ∧
    (is_file_processed tr bad = false →
      is_file_processed
        (process_directory tagger now (A ++ (bad, Except.error e) :: B) st tr).2
        bad = true) := by
  constructor
  · simp only [process_directory]
    rw [process_directory_fst, process_directory_fst]
    rw [List.filter_append, List.filter_append, List.filter_cons]
    by_cases hb : is_file_processed tr bad = true
    · simp [hb]
    · rw [Bool.not_eq_true] at hb
      simp [hb, List.foldl_append, process_text_file]
  · intro h
    simp only [process_directory]
    rw [process_directory_snd]
    apply mark_foldl_contains
    left
    have hmem : (bad, Except.error e) ∈
        (A ++ (bad, Except.error e) :: B).filter
          (fun f => !(is_file_processed tr f.1)) := by
      refine List.mem_filter.mpr ⟨?_, ?_⟩
      · exact List.mem_append_right _ (List.mem_cons_self _ _)
      · simp [h]
    exact List.mem_map_of_mem (fun f => f.1) hmem

/-- C1 amended witness: a concrete batch where `bad.txt` errors and `ok.txt`
succeeds — the store matches the run without `bad.txt`, and `bad.txt` ends up
marked processed. -/
theorem c1_amended_error_file_witness :
    (process_directory tg0 0
        ([] ++ ("bad.txt", Except.error "io error") ::
          [("ok.txt", Except.ok "cat cat")]) emptyStore ([] : Tracker)).1 =
      (process_directory tg0 0 ([] ++ [("ok.txt", Except.ok "cat cat")])
        emptyStore ([] : Tracker)).1 ∧
    is_file_processed
      (process_directory tg0 0
        ([] ++ ("bad.txt", Except.error "io error") ::
          [("ok.txt", Except.ok "cat cat")]) emptyStore ([] : Tracker)).2
      "bad.txt" = true :=
  ⟨(c1_amended_error_file tg0 0 emptyStore ([] : Tracker) []
      [("ok.txt", Except.ok "cat cat")] "bad.txt" "io error").1,
   (c1_amended_error_file tg0 0 emptyStore ([] : Tracker) []
      [("ok.txt", Except.ok "cat cat")] "bad.txt" "io error").2 rfl⟩

/-- C4: the claim states that the Ingestion Tracker keys processed-file
identity by the canonical form of the path, so two spellings of the same file
share one tracker entry.  This is false on the code: `is_file_processed` and
`mark_file_processed` use the path string verbatim — `"./book/a.txt"` and
`"book/a.txt"` have the same canonical path yet marking the first leaves the
second unmarked. -/
theorem c4_counterexample :
    canonicalPath "./book/a.txt" = canonicalPath "book/a.txt" ∧
    "./book/a.txt" ≠ "book/a.txt" ∧
    is_file_processed
      (mark_file_processed ([] : Tracker) "./book/a.txt") "book/a.txt" = false := by
  decide

/-- C4 (amended): the Ingestion Tracker keys processed-file identity by the
exact path string handed to it, with no canonicalisation: marking a path makes
exactly that spelling processed (idempotently) and leaves every other string
— including other spellings of the same file — unaffected, so a file
contributes at most once per distinct spelling, not at most once overall. -/
theorem c4_amended_exact_path (tr : Tracker) (p q : String) :
    is_file_processed (mark_file_processed tr p) p = true ∧
    (q ≠ p → is_file_processed (mark_file_processed tr p) q = is_file_processed tr q) ∧
    mark_file_processed (mark_file_processed tr p) p = mark_file_processed tr p := by
  refine ⟨is_processed_mark_self tr p, fun hq => ?_, ?_⟩
  · unfold is_file_processed mark_file_processed
    split
    · rfl
    · simp [List.contains_cons, hq]
  · unfold mark_file_processed
    split
    · next h => simp [h]
    · next h => simp [List.contains_cons]

/-- C4 amended witness: marking `"a.txt"` on the tracker `["x"]` makes exactly
`"a.txt"` processed and leaves `"b.txt"` as it was. -/
theorem c4_amended_exact_path_witness :
    is_file_processed (mark_file_processed ["x"] "a.txt") "a.txt" = true ∧
    is_file_processed (mark_file_processed ["x"] "a.txt") "b.txt" =
      is_file_processed ["x"] "b.txt" ∧
    mark_file_processed (mark_file_processed ["x"] "a.txt") "a.txt" =
      mark_file_processed ["x"] "a.txt" :=
  ⟨(c4_amended_exact_path ["x"] "a.txt" "b.txt").1,
   (c4_amended_exact_path ["x"] "a.txt" "b.txt").2.1 (by decide),
   (c4_amended_exact_path ["x"] "a.txt" "b.txt").2.2⟩

theorem charsLE_total : ∀ l1 l2 : List Char, charsLE l1 l2 = true ∨ charsLE l2 l1 = true := by
  intro l1
  induction l1 with
  | nil => intro l2; left; rfl
  | cons a as ih =>
    intro l2
    cases l2 with
    | nil => right; rfl
    | cons b bs =>
      by_cases hab : a = b
      · subst hab
        rcases ih bs with h | h
        · left; simpa [charsLE] using h
        · right; simpa [charsLE] using h
      · rcases lt_or_gt_of_ne hab with h | h
        · left; simp [charsLE, hab, h]
        · right
          have hba : ¬ b = a := fun he => hab he.symm
          simp [charsLE, hba, h]

theorem charsLE_trans :
    ∀ l1 l2 l3 : List Char,
      charsLE l1 l2 = true → charsLE l2 l3 = true → charsLE l1 l3 = true := by
  intro l1
  induction l1 with
  | nil => intro l2 l3 _ _; rfl
  | cons a as ih =>
    intro l2 l3 h12 h23
    cases l2 with
    | nil => simp [charsLE] at h12
    | cons b bs =>
      cases l3 with
      | nil => simp [charsLE] at h23
      | cons c cs =>
        by_cases hab : a = b <;> by_cases hbc : b = c
        · subst hab; subst hbc
          simp only [charsLE, if_pos rfl] at h12 h23 ⊢
          exact ih bs cs h12 h23
        · subst hab
          simp only [charsLE, if_pos rfl] at h12
          simp only [charsLE, hbc, if_neg hbc] at h23
          have hlt : a < c := of_decide_eq_true h23
          have hac : ¬ a = c := ne_of_lt hlt
          simp [charsLE, hac, hlt]
        · subst hbc
          simp only [charsLE, hab, if_neg hab] at h12
          have hlt : a < b := of_decide_eq_true h12
          have hac : ¬ a = b := ne_of_lt hlt
          simp [charsLE, hac, hlt]
        · simp only [charsLE, if_neg hab] at h12
          simp only [charsLE, if_neg hbc] at h23
          have h1 : a < b := of_decide_eq_true h12
          have h2 : b < c := of_decide_eq_true h23
          have hlt : a < c := lt_trans h1 h2
          have hac : ¬ a = c := ne_of_lt hlt
          simp [charsLE, hac, hlt]

/-- C5: for every store state (list of `(word, count)` rows) and every limit,
the ranked statistics sequence is sorted by count descending with ties broken
by word ascending (lexicographic) — and, `rank` being a function,
deterministically so; on the example counts cat=5, bat=5, dog=3, `rank` with
limit 3 returns `[("bat",5), ("cat",5), ("dog",3)]`. -/
theorem c5_rank_deterministic :
    (∀ (rows : List (String × Nat)) (limit : Nat),
      List.Sorted rankLE (rank rows limit)) ∧
    rank [("cat", 5), ("bat", 5), ("dog", 3)] 3 =
      [("bat", 5), ("cat", 5), ("dog", 3)] := by
  constructor
  · intro rows limit
    haveI : IsTotal (String × Nat) rankLE :=
      ⟨fun a b => by
        unfold rankLE
        rcases lt_trichotomy a.2 b.2 with h | h | h
        · exact Or.inr (Or.inl h)
        · rcases charsLE_total a.1.data b.1.data with hle | hle
          · exact Or.inl (Or.inr ⟨h, hle⟩)
          · exact Or.inr (Or.inr ⟨h.symm, hle⟩)
        · exact Or.inl (Or.inl h)⟩
    haveI : IsTrans (String × Nat) rankLE :=
      ⟨fun a b c hab hbc => by
        unfold rankLE at hab hbc ⊢
        rcases hab with h1 | ⟨h1, h1w⟩ <;> rcases hbc with h2 | ⟨h2, h2w⟩
        · exact Or.inl (by omega)
        · exact Or.inl (by omega)
        · exact Or.inl (by omega)
        · exact Or.inr ⟨h1.trans h2, charsLE_trans _ _ _ h1w h2w⟩⟩
    exact List.Pairwise.sublist (List.take_sublist _ _)
      (List.sorted_insertionSort rankLE rows)
  · decide

theorem sum_map_row_div (sel : List (String × Nat × String)) (T : ℚ) :
    (sel.map (fun r => (r.2.1 : ℚ) / T * 100)).sum
      = (Nat.cast ((sel.map (fun r => r.2.1)).sum) : ℚ) / T * 100 := by
  induction sel with
  | nil => simp
  | cons a l ih =>
    simp only [List.map_cons, List.sum_cons, ih]
    push_cast
    ring

theorem sum_counts_filter (p : (String × Nat × String) → Bool)
    (l : List (String × Nat × String)) :
    ((l.filter p).map (fun r => r.2.1)).sum
      + ((l.filter (fun r => !p r)).map (fun r => r.2.1)).sum
      = (l.map (fun r => r.2.1)).sum := by
  induction l with
  | nil => simp
  | cons a l ih =>
    rw [List.filter_cons, List.filter_cons, List.map_cons, List.sum_cons]
    cases h : p a <;> simp [h] <;> omega

theorem count_le_total (l : List (String × Nat × String))
    (r : String × Nat × String) (h : r ∈ l) :
    r.2.1 ≤ (l.map (fun x => x.2.1)).sum := by
  induction l with
  | nil => cases h
  | cons a l ih =>
    rw [List.map_cons, List.sum_cons]
    rcases List.mem_cons.mp h with h1 | h1
    · subst h1; exact Nat.le_add_right _ _
    · exact le_trans (ih h1) (Nat.le_add_left _ _)

theorem export_map_catPct (rows : List (String × Nat × String))
    (pf : Option String) (hfT : 0 < filtered_total rows pf) :
    ((export_words rows none pf).map (fun e => e.2.2.2.1)).sum
      = (sel_total rows pf : ℚ) / (filtered_total rows pf : ℚ) * 100 := by
  simp only [export_words]
  rw [List.map_map]
  have hfun : ((fun e : String × Nat × String × ℚ × ℚ => e.2.2.2.1)
        ∘ export_row (filtered_total rows pf) (all_words_total rows))
      = fun r : String × Nat × String =>
          (r.2.1 : ℚ) / (filtered_total rows pf : ℚ) * 100 := by
    funext r
    simp [export_row, Function.comp, hfT]
  rw [hfun]
  rw [List.Perm.sum_eq ((List.perm_insertionSort rowLE (filtered_rows rows pf)).map _)]
  exact sum_map_row_div (filtered_rows rows pf) (filtered_total rows pf : ℚ)

theorem export_map_allPct (rows : List (String × Nat × String))
    (pf : Option String) (haT : 0 < all_words_total rows) :
    ((export_words rows none pf).map (fun e => e.2.2.2.2)).sum
      = (sel_total rows pf : ℚ) / (all_words_total rows : ℚ) * 100 := by
  simp only [export_words]
  rw [List.map_map]
  have hfun : ((fun e : String × Nat × String × ℚ × ℚ => e.2.2.2.2)
        ∘ export_row (filtered_total rows pf) (all_words_total rows))
      = fun r : String × Nat × String =>
          (r.2.1 : ℚ) / (all_words_total rows : ℚ) * 100 := by
    funext r
    simp [export_row, Function.comp, haT]
  rw [hfun]
  rw [List.Perm.sum_eq ((List.perm_insertionSort rowLE (filtered_rows rows pf)).map _)]
  exact sum_map_row_div (filtered_rows rows pf) (all_words_total rows : ℚ)

/-- C9: on a non-empty store with positive counts, the category-percentage
column of an unfiltered (no-limit) export sums to exactly 100%; with a category
filter that excludes at least one record, the overall-percentage column sums to
strictly less than 100%; and whenever the grand total (a percentage
denominator) is zero, every percentage in every export is reported as zero
rather than failing. -/
theorem c9_percentage_invariant (rows : List (String × Nat × String))
    (pat : String) :
    (rows ≠ [] → (∀ r ∈ rows, 0 < r.2.1) →
      ((export_words rows none none).map (fun e => e.2.2.2.1)).sum = 100) ∧
    ((∃ r ∈ rows, likeMatch r.2.2 pat = false) → (∀ r ∈ rows, 0 < r.2.1) →
      ((export_words rows none (some pat)).map (fun e => e.2.2.2.2)).sum < 100) ∧
    (∀ (limit : Option Nat) (pf : Option String),
      all_words_total rows = 0 →
      ∀ e ∈ export_words rows limit pf, e.2.2.2.1 = 0 ∧ e.2.2.2.2 = 0) := by
  refine ⟨fun hne hpos => ?_, fun hex hpos => ?_, fun limit pf hzero e he => ?_⟩
  · have haT : 0 < all_words_total rows := by
      obtain ⟨r, hr⟩ := List.exists_mem_of_ne_nil rows hne
      have h1 := hpos r hr
      have h2 := count_le_total rows r hr
      unfold all_words_total
      omega
    have hfT : 0 < filtered_total rows (none : Option String) := haT
    rw [export_map_catPct rows none hfT]
    have hkey : sel_total rows (none : Option String)
        = filtered_total rows (none : Option String) := rfl
    rw [hkey]
    have hx : ((filtered_total rows (none : Option String) : ℚ)) ≠ 0 := by
      exact_mod_cast Nat.pos_iff_ne_zero.mp hfT
    rw [div_self hx, one_mul]
  · obtain ⟨r0, hr0mem, hr0p⟩ := hex
    have haT : 0 < all_words_total rows := by
      have h1 := hpos r0 hr0mem
      have h2 := count_le_total rows r0 hr0mem
      unfold all_words_total
      omega
    rw [export_map_allPct rows (some pat) haT]
    have hpart := sum_counts_filter (fun r => likeMatch r.2.2 pat) rows
    have hr0mem2 : r0 ∈ rows.filter (fun r => !(likeMatch r.2.2 pat)) :=
      List.mem_filter.mpr ⟨hr0mem, by simp [hr0p]⟩
    have hr0le := count_le_total (rows.filter (fun r => !(likeMatch r.2.2 pat)))
      r0 hr0mem2
    have hSf : sel_total rows (some pat) < all_words_total rows := by
      have h1 := hpos r0 hr0mem
      simp only [sel_total, filtered_rows, all_words_total]
      omega
    have hT0 : (0 : ℚ) < (all_words_total rows : ℚ) := by exact_mod_cast haT
    have h1 : ((sel_total rows (some pat) : ℚ)) < (all_words_total rows : ℚ) := by
      exact_mod_cast hSf
    rw [div_mul_eq_mul_div, div_lt_iff₀ hT0]
    nlinarith
  · have hfT : filtered_total rows pf = 0 := by
      cases pf with
      | none => exact hzero
      | some p =>
        have hpart := sum_counts_filter (fun r => likeMatch r.2.2 p) rows
        simp only [filtered_total, filtered_rows]
        unfold all_words_total at hzero
        omega
    simp only [export_words] at he
    obtain ⟨r, hrmem, hre⟩ := List.mem_map.mp he
    rw [← hre]
    constructor <;> simp [export_row, hfT, hzero]

/-- C9 witness: on the concrete table `rows9` (cat/5/NN, dog/3/VB) the
unfiltered category percentages sum to 100 and the NN-filtered overall
percentages sum below 100; on `rowsZ` (total 0) the exported percentages of the
row `("a",0,"NN")` are 0. -/
theorem c9_percentage_invariant_witness :
    ((export_words rows9 none none).map (fun e => e.2.2.2.1)).sum = 100 ∧
    ((export_words rows9 none (some "NN")).map (fun e => e.2.2.2.2)).sum < 100 ∧
    (("a", (0 : Nat), "NN", (0 : ℚ), (0 : ℚ)).2.2.2.1 = 0 ∧
      ("a", (0 : Nat), "NN", (0 : ℚ), (0 : ℚ)).2.2.2.2 = 0) :=
  ⟨(c9_percentage_invariant rows9 "NN").1 (by decide) (by decide),
   (c9_percentage_invariant rows9 "NN").2.1
     ⟨("dog", 3, "VB"), by decide, by decide⟩ (by decide),
   (c9_percentage_invariant rowsZ "NN").2.2 none (some "NN") (by decide)
     ("a", 0, "NN", 0, 0) (by decide)⟩
